import Mathlib

/-!
Verification of the ifc-reader file reader (src/lib/core/src/File.cpp and the
parallel translation unit src/unnamed/part_001) against its specification.

The C++ code is shallowly embedded: the blob is a `List Nat` of bytes, pointers
into the blob are byte addresses (`Nat`, relative to a `base`), machine
structures decoded by `reinterpret_cast` are read through a `Layout` record
that packages the fixed-layout record sizes and decoders declared in the
headers (ifc/File.h) that are not part of src/.  Hash maps
(`std::unordered_map`) are embedded as association lists observed only through
lookup, which is faithful because the code never iterates over them.
-/

namespace IfcReader

/-- Canonical 4-byte file signature, `CANONICAL_FILE_SIGNATURE` in File.cpp:
`as_bytes(0x54, 0x51, 0x45, 0x1A)`. -/
def CANONICAL_FILE_SIGNATURE : List Nat := [0x54, 0x51, 0x45, 0x1A]

/-- `ifc::FileHeader`, the fixed-layout record following the signature.
Fields as used by File.cpp: `toc`, `partition_count`, `string_table_bytes`,
`string_table_size`, `global_scope`, `unit`.  Raw-count wrappers
(`raw_count`) are already converted to `Nat`. -/
structure FileHeader where
  toc : Nat
  partition_count : Nat
  string_table_bytes : Nat
  string_table_size : Nat
  global_scope : Nat
  unit : Nat
deriving DecidableEq, Repr

/-- `ifc::PartitionSummary`, one table-of-contents descriptor:
`name : TextOffset`, `offset : ByteOffset`, `cardinality`, `entry_size`. -/
structure PartitionSummary where
  name : Nat
  offset : Nat
  cardinality : Nat
  entry_size : Nat
deriving DecidableEq, Repr

/-- Modelled from the spec: `PartitionSummary::size_bytes()` is declared in
ifc/File.h, which is absent from src/.  The spec's size formula sums, per
descriptor, the partition payload size, which for a flat array of
`cardinality` records of `entry_size` bytes each is their product. -/
def PartitionSummary.size_bytes (p : PartitionSummary) : Nat :=
  p.entry_size * p.cardinality

/-- Modelled from the spec: the fixed record layouts of `FileHeader` and
`PartitionSummary` are declared in ifc/File.h, absent from src/.  The spec
fixes only that both records have a fixed size and are read in place from the
blob, so the development is parametric in the sizes and the decoders. -/
structure Layout where
  sizeofFileHeader : Nat
  sizeofPartitionSummary : Nat
  decodeHeader : List Nat → FileHeader
  decodePartitionSummary : List Nat → Nat → PartitionSummary

/-- `File::Impl::get_raw_pointer`: `blob_.data() + offset`, as a byte
address relative to an arbitrary base address of the blob. -/
def get_raw_pointer (base offset : Nat) : Nat := base + offset

/-- `File::Impl::get_string`: `get_pointer<char>(header().string_table_bytes)
+ static_cast<size_t>(index)`.  Returns the address of the first character. -/
def get_string_ptr (base : Nat) (h : FileHeader) (t : Nat) : Nat :=
  get_raw_pointer base h.string_table_bytes + t

/-- Reading a NUL-terminated C string that starts at byte address `addr`
of the blob (what `std::string_view(char const*)` observes). -/
def getStringBytes (bytes : List Nat) (addr : Nat) : List Nat :=
  (bytes.drop addr).takeWhile (fun b => b != 0)

/-- The string content `get_string` resolves for text offset `t`:
the NUL-terminated bytes at `string_table_bytes + t`. -/
def get_string (bytes : List Nat) (h : FileHeader) (t : Nat) : List Nat :=
  getStringBytes bytes (h.string_table_bytes + t)

/-- `File::Impl::table_of_contents`: the array of `partition_count`
descriptors starting at byte offset `header.toc`. -/
def table_of_contents (L : Layout) (bytes : List Nat) (h : FileHeader) :
    List PartitionSummary :=
  (List.range h.partition_count).map fun i =>
    L.decodePartitionSummary bytes (h.toc + i * L.sizeofPartitionSummary)

/-- `File::Impl::calc_size`:
`sizeof(Structure) + raw_count(string_table_size) + toc.size_bytes() +
Σ partition.size_bytes()` where `sizeof(Structure) = 4 + sizeof(FileHeader)`
and `toc.size_bytes() = count * sizeof(PartitionSummary)`. -/
def calc_size (L : Layout) (bytes : List Nat) (h : FileHeader) : Nat :=
  4 + L.sizeofFileHeader + h.string_table_size
    + (table_of_contents L bytes h).length * L.sizeofPartitionSummary
    + ((table_of_contents L bytes h).map PartitionSummary.size_bytes).sum

/-- Association-list lookup, the observable behaviour of
`std::unordered_map::find` / `::at` / `::emplace` keyed lookups. -/
def alookup {κ α : Type} [DecidableEq κ] (k : κ) : List (κ × α) → Option α
  | [] => none
  | (k', v) :: rest => if k' = k then some v else alookup k rest

/-- `std::unordered_map::emplace`: inserts `(k, v)` only when no entry with
key `k` exists; an existing entry is left untouched. -/
def emplace (m : List (List Nat × PartitionSummary)) (k : List Nat)
    (v : PartitionSummary) : List (List Nat × PartitionSummary) :=
  if (alookup k m).isSome then m else m ++ [(k, v)]

/-- The TOC name map built by the `File::Impl` constructor loop:
`table_of_contents_.emplace(get_string(partition.name), &partition)`. -/
def build_toc_map (L : Layout) (bytes : List Nat) (h : FileHeader) :
    List (List Nat × PartitionSummary) :=
  (table_of_contents L bytes h).foldl
    (fun m p => emplace m (get_string bytes h p.name) p) []

/-- The two exceptions thrown by `File::Impl::Impl`. -/
inductive OpenError
  | corruptedSignature
  | corruptedFile
deriving DecidableEq, Repr

/-- The state a successfully constructed `File::Impl` holds. -/
structure FileImpl where
  bytes : List Nat
  header : FileHeader
  toc : List PartitionSummary
  tocMap : List (List Nat × PartitionSummary)
deriving DecidableEq, Repr

/-- `File::Impl::Impl(BlobView)`: check the signature (first four bytes),
check `calc_size() == blob_.size()`, then build the TOC name map. -/
def openImpl (L : Layout) (blob : List Nat) : Except OpenError FileImpl :=
  if blob.take 4 ≠ CANONICAL_FILE_SIGNATURE then
    .error .corruptedSignature
  else if calc_size L blob (L.decodeHeader blob) ≠ blob.length then
    .error .corruptedFile
  else
    .ok { bytes := blob
          header := L.decodeHeader blob
          toc := table_of_contents L blob (L.decodeHeader blob)
          tocMap := build_toc_map L blob (L.decodeHeader blob) }

/-! ### A concrete layout instance for witnesses

`LayoutLE` is a little-endian instantiation of the parametric layout: every
header/descriptor field is a 4-byte little-endian scalar, giving
`sizeof(FileHeader) = 24` and `sizeof(PartitionSummary) = 16`.  It exists so
that universally-quantified theorems can be evaluated on concrete blobs. -/

/-- Read a 4-byte little-endian scalar at byte offset `off`. -/
def readLE4 (bytes : List Nat) (off : Nat) : Nat :=
  bytes.getD off 0 + 256 * bytes.getD (off + 1) 0
    + 65536 * bytes.getD (off + 2) 0 + 16777216 * bytes.getD (off + 3) 0

/-- Concrete little-endian layout: header fields at offsets 4,8,…,24,
descriptor fields at relative offsets 0,4,8,12. -/
def LayoutLE : Layout where
  sizeofFileHeader := 24
  sizeofPartitionSummary := 16
  decodeHeader bytes :=
    { toc := readLE4 bytes 4
      partition_count := readLE4 bytes 8
      string_table_bytes := readLE4 bytes 12
      string_table_size := readLE4 bytes 16
      global_scope := readLE4 bytes 20
      unit := readLE4 bytes 24 }
  decodePartitionSummary bytes off :=
    { name := readLE4 bytes off
      offset := readLE4 bytes (off + 4)
      cardinality := readLE4 bytes (off + 8)
      entry_size := readLE4 bytes (off + 12) }

/-! ### Partition resolution (File::Impl::get_partition and variants) -/

/-- The value of a resolved `Partition<T, Index>`: its data pointer (as a
byte offset from the blob base, since `get_pointer<T>(offset)` is
`blob.data() + offset`) and its length. -/
structure PartitionView where
  dataOff : Nat
  size : Nat
deriving DecidableEq, Repr

/-- `File::Impl::get_partition(PartitionSummary const*)`, release behaviour:
`{ get_pointer<T>(partition->offset), raw_count(partition->cardinality) }`. -/
def resolve_partition (p : PartitionSummary) : PartitionView :=
  ⟨p.offset, p.cardinality⟩

/-- The debug build of `get_partition(PartitionSummary const*)`: the
`assert(static_cast<size_t>(partition->entry_size) == sizeof(T))` aborts
(modelled as `none`) when the descriptor's entry size differs from
`sizeof(T)`. -/
def entry_size_check (sizeofT : Nat) (p : PartitionSummary) :
    Option PartitionView :=
  if p.entry_size = sizeofT then some (resolve_partition p) else none

/-- `File::Impl::try_get_partition(name)`: `std::nullopt` when the name is
not in the TOC map, the resolved partition otherwise. -/
def try_get_partition (F : FileImpl) (name : List Nat) :
    Option PartitionView :=
  match alookup name F.tocMap with
  | none => none
  | some p => some (resolve_partition p)

/-- Failure of the required partition lookup: `table_of_contents_.at(name)`
throws `std::out_of_range` when the name is missing. -/
inductive GetError
  | missingPartition
deriving DecidableEq, Repr

/-- `File::Impl::get_partition(name)`:
`get_partition<T, Index>(table_of_contents_.at(name))`. -/
def get_partition_req (F : FileImpl) (name : List Nat) :
    Except GetError PartitionView :=
  match alookup name F.tocMap with
  | none => .error .missingPartition
  | some p => .ok (resolve_partition p)

/-- The `cached_partitions_` array of `File::Impl`: one
`std::optional<UntypedPartition>` slot per accessor, each holding the
type-erased `(data, size)` pair. -/
def CacheState : Type := List (Option (Nat × Nat))

/-- `File::Impl::get_and_cache_partition(name, cache_type)`: return the
re-typed cached pair on a hit; on a miss resolve through the TOC map, store
`(result.data(), result.size())` in the slot and return the result. -/
def get_and_cache_partition (F : FileImpl) (name : List Nat) (slot : Nat)
    (cache : CacheState) : Except GetError (PartitionView × CacheState) :=
  match cache.getD slot none with
  | some c => .ok (⟨c.1, c.2⟩, cache)
  | none =>
    match alookup name F.tocMap with
    | none => .error .missingPartition
    | some p =>
      .ok (resolve_partition p, cache.set slot (some (p.offset, p.cardinality)))

/-- A small concrete descriptor and file used to evaluate the lookup and
cache theorems: one partition named `"a"` at offset 16, 3 records of
8 bytes. -/
def pcA : PartitionSummary := ⟨0, 16, 3, 8⟩

/-- The byte string `"a"`, the resolved name of `pcA`. -/
def nmA : List Nat := [97]

/-- Concrete `FileImpl` with the single partition `pcA` under name `"a"`. -/
def Fc : FileImpl := ⟨[], ⟨0, 0, 0, 0, 0, 0⟩, [pcA], [(nmA, pcA)]⟩

/-! ### Trait indexes (File::Impl::trait_* and fill_decl_attributes)

The trait builders scan the decoded contents of the associated-trait
partitions; the decoded record list (the result of
`try_get_partition<AssociatedTrait<T>, Index>(name)`, `none` when the
partition is not in the TOC) is taken as the argument. -/

/-- `ifc::AssociatedTrait<T>`: a `(decl, trait)` pair record. -/
structure AssociatedTrait (α : Type) where
  decl : Nat
  trait : α
deriving DecidableEq, Repr

/-- `(*trait_declaration_attributes_)[attribute.decl].push_back(attribute.trait)`:
`operator[]` default-constructs an empty vector for an absent key, then the
attribute is appended at the end. -/
def pushAttr : List (Nat × List Nat) → Nat → Nat → List (Nat × List Nat)
  | [], d, a => [(d, [a])]
  | (k, v) :: rest, d, a =>
    if k = d then (k, v ++ [a]) :: rest else (k, v) :: pushAttr rest d a

/-- `File::Impl::fill_decl_attributes(partition)`: if the partition is
present, fold its records through the push-back insertion in partition
order; otherwise leave the map unchanged. -/
def fill_decl_attributes (m : List (Nat × List Nat))
    (part : Option (List (AssociatedTrait Nat))) : List (Nat × List Nat) :=
  match part with
  | none => m
  | some entries => entries.foldl (fun acc e => pushAttr acc e.decl e.trait) m

/-- `File::Impl::trait_declaration_attributes()` build:
start from the empty map, scan `trait.attribute`, then
`.msvc.trait.decl-attrs`. -/
def trait_declaration_attributes_map
    (a1 a2 : Option (List (AssociatedTrait Nat))) : List (Nat × List Nat) :=
  fill_decl_attributes (fill_decl_attributes [] a1) a2

/-- `ifc::get_value<RetType>(declaration, map)` (File.cpp): the mapped value
when the key is found, a value-initialized `RetType{}` (Lean: `default`)
otherwise. -/
def get_value {α : Type} [Inhabited α] (d : Nat) (m : List (Nat × α)) : α :=
  match alookup d m with
  | some v => v
  | none => default

/-- `File::trait_declaration_attributes(declaration)`: query the built
attribute map; a missing key yields the empty list. -/
def trait_declaration_attributes (a1 a2 : Option (List (AssociatedTrait Nat)))
    (d : Nat) : List Nat :=
  get_value d (trait_declaration_attributes_map a1 a2)

/-- `(*trait_deprecation_texts_)[deprecation.decl] = deprecation.trait`:
keyed assignment, last write wins. -/
def insertAssign : List (Nat × Nat) → Nat → Nat → List (Nat × Nat)
  | [], d, t => [(d, t)]
  | (k, v) :: rest, d, t =>
    if k = d then (k, t) :: rest else (k, v) :: insertAssign rest d t

/-- `File::Impl::trait_deprecation_texts()` build: empty map when the
`trait.deprecated` partition is absent, otherwise one assignment per
record in partition order. -/
def trait_deprecation_texts_map (dep : Option (List (AssociatedTrait Nat))) :
    List (Nat × Nat) :=
  match dep with
  | none => []
  | some entries =>
    entries.foldl (fun acc e => insertAssign acc e.decl e.trait) []

/-- The null `TextOffset`: the zero bit pattern (`TextOffset{}`). -/
def nullTextOffset : Nat := 0

/-- `File::trait_deprecation_texts(declaration)`: query the built
deprecation map; a missing key yields the null text offset. -/
def trait_deprecation_texts (dep : Option (List (AssociatedTrait Nat)))
    (d : Nat) : Nat :=
  get_value d (trait_deprecation_texts_map dep)

/-! ### Imported-module resolution (File::get_imported_module) -/

/-- Modelled from the spec: `ifc::ModuleReference` (ifc/Module.h is absent
from src/) is a pair of text offsets `owner` and `partition`;
`module.imported` is a partition of such records. -/
structure ModuleReference where
  owner : Nat
  partition : Nat
deriving DecidableEq, Repr

/-- Modelled from the spec: `ifc::is_null(TextOffset)` (declared in the
absent headers) — a null bit pattern denotes "absent", so a text offset is
null exactly when it is zero. -/
def is_null (t : Nat) : Bool := t == 0

/-- The name string `File::get_imported_module(module)` passes to
`env_->get_module_by_name`: the partition name alone when the owner is
null, otherwise the owner name, with `":" + partition` appended when the
partition is non-null.  `58` is the byte `':'`. -/
def get_imported_module_query (bytes : List Nat) (h : FileHeader)
    (m : ModuleReference) : List Nat :=
  if is_null m.owner then
    get_string bytes h m.partition
  else
    let name := get_string bytes h m.owner
    if !is_null m.partition then
      name ++ [58] ++ get_string bytes h m.partition
    else
      name

/-! ### Concrete blobs for the TOC-name-map claims -/

/-- A 62-byte blob that passes both open checks and whose TOC lists two
descriptors resolving to the same name `"a"`: signature, header
(toc = 28, partition_count = 2, string table at 60 of size 2), two
all-zero descriptors, string table `"a\0"`. -/
def dupBlob : List Nat :=
  [0x54, 0x51, 0x45, 0x1A,
   28, 0, 0, 0,  2, 0, 0, 0,  60, 0, 0, 0,  2, 0, 0, 0,
   0, 0, 0, 0,  0, 0, 0, 0]
  ++ List.replicate 32 0 ++ [97, 0]

/-- The descriptor both TOC entries of `dupBlob` decode to. -/
def dupDescriptor : PartitionSummary := ⟨0, 0, 0, 0⟩

/-- The `FileImpl` that opening `dupBlob` produces: two TOC descriptors but
a single name-map entry. -/
def dupFile : FileImpl :=
  { bytes := dupBlob
    header := ⟨28, 2, 60, 2, 0, 0⟩
    toc := [dupDescriptor, dupDescriptor]
    tocMap := [([97], dupDescriptor)] }

/-- A 64-byte blob like `dupBlob` but whose two descriptors resolve to the
distinct names `"a"` and `"b"` (string table `"a\0b\0"` of size 4). -/
def twoNamesBlob : List Nat :=
  [0x54, 0x51, 0x45, 0x1A,
   28, 0, 0, 0,  2, 0, 0, 0,  60, 0, 0, 0,  4, 0, 0, 0,
   0, 0, 0, 0,  0, 0, 0, 0]
  ++ [0, 0, 0, 0,  0, 0, 0, 0,  0, 0, 0, 0,  0, 0, 0, 0]
  ++ [2, 0, 0, 0,  0, 0, 0, 0,  0, 0, 0, 0,  0, 0, 0, 0]
  ++ [97, 0, 98, 0]

/-- The header `twoNamesBlob` decodes to under `LayoutLE`. -/
def twoHdr : FileHeader := ⟨28, 2, 60, 4, 0, 0⟩

end IfcReader

namespace IfcReader

/-! ### Helper lemmas on lists, used by the cache proofs -/

theorem list_getD_set_self {α : Type} (l : List α) (i : Nat) (a d : α)
    (h : i < l.length) : (l.set i a).getD i d = a := by
  induction l generalizing i with
  | nil => simp at h
  | cons x xs ih =>
    cases i with
    | zero => rfl
    | succ n =>
      simp only [List.set]
      show (xs.set n a).getD n d = a
      exact ih n (by simpa using h)

theorem list_set_of_length_le {α : Type} (l : List α) (i : Nat) (a : α)
    (h : l.length ≤ i) : l.set i a = l := by
  induction l generalizing i with
  | nil => cases i <;> rfl
  | cons x xs ih =>
    cases i with
    | zero => simp at h
    | succ n =>
      simp only [List.set, List.cons.injEq, true_and]
      exact ih n (by simpa using h)

/-- C1: for every blob whose first four bytes differ from the canonical
signature, construction fails with the bad-signature error.  The statement
holds for every layout and depends on nothing but `blob.take 4`, so no byte
past the first four influences the outcome. -/
theorem open_bad_signature (L : Layout) (blob : List Nat)
    (h : blob.take 4 ≠ CANONICAL_FILE_SIGNATURE) :
    openImpl L blob = .error .corruptedSignature := by
  simp only [openImpl, if_pos h]

/-- Witness for C1: scenario S2, byte 0 corrupted to `0xFF`. -/
theorem open_bad_signature_witness :
    ([0xFF, 0x51, 0x45, 0x1A] : List Nat).take 4 ≠ CANONICAL_FILE_SIGNATURE ∧
    openImpl LayoutLE [0xFF, 0x51, 0x45, 0x1A] = .error .corruptedSignature :=
  ⟨by decide, open_bad_signature LayoutLE [0xFF, 0x51, 0x45, 0x1A] (by decide)⟩

/-- C2: for every blob passing the signature check, `calc_size` is exactly
`sizeof(signature) + sizeof(header) + string_table_size + toc.size_bytes +
Σ partition.size_bytes`, and open fails with the corrupted-file error iff
this computed size differs from the blob length. -/
theorem open_size_check (L : Layout) (blob : List Nat)
    (hsig : blob.take 4 = CANONICAL_FILE_SIGNATURE) :
    calc_size L blob (L.decodeHeader blob) =
      4 + L.sizeofFileHeader + (L.decodeHeader blob).string_table_size
        + (table_of_contents L blob (L.decodeHeader blob)).length
            * L.sizeofPartitionSummary
        + ((table_of_contents L blob (L.decodeHeader blob)).map
            PartitionSummary.size_bytes).sum ∧
    (openImpl L blob = .error .corruptedFile ↔
      calc_size L blob (L.decodeHeader blob) ≠ blob.length) := by
  refine ⟨rfl, ?_⟩
  unfold openImpl
  rw [if_neg (by simp [hsig])]
  by_cases hc : calc_size L blob (L.decodeHeader blob) ≠ blob.length
  · simp [hc]
  · simp [hc]

/-- Witness for C2: scenario S1, the minimal valid blob (empty TOC, empty
string table); its computed size 28 equals its length, so open succeeds. -/
theorem open_size_check_witness :
    (let minBlob : List Nat :=
      [0x54, 0x51, 0x45, 0x1A, 28, 0, 0, 0, 0, 0, 0, 0, 0, 0, 0, 0,
       0, 0, 0, 0, 0, 0, 0, 0, 0, 0, 0, 0]
     minBlob.take 4 = CANONICAL_FILE_SIGNATURE ∧
     (openImpl LayoutLE minBlob = .error .corruptedFile ↔
       calc_size LayoutLE minBlob (LayoutLE.decodeHeader minBlob) ≠
         minBlob.length)) :=
  ⟨by decide,
   (open_size_check LayoutLE _ (by decide)).2⟩

/-- C3: for every descriptor found in the TOC map under a requested name,
`get_partition` returns the partition whose data pointer is
`blob.base + descriptor.offset` and whose length is
`descriptor.cardinality`, and the debug-level assertion admits the result
exactly when `descriptor.entry_size = sizeof(T)`. -/
theorem get_partition_contract (F : FileImpl) (sizeofT : Nat)
    (name : List Nat) (p : PartitionSummary)
    (hfind : alookup name F.tocMap = some p) :
    get_partition_req F name = .ok (resolve_partition p) ∧
    (resolve_partition p).dataOff = p.offset ∧
    (resolve_partition p).size = p.cardinality ∧
    (entry_size_check sizeofT p = some (resolve_partition p) ↔
      p.entry_size = sizeofT) := by
  refine ⟨?_, rfl, rfl, ?_⟩
  · simp [get_partition_req, hfind]
  · constructor
    · intro h
      by_contra hne
      simp [entry_size_check, hne] at h
    · intro h
      simp [entry_size_check, h]

/-- Witness for C3: the descriptor `pcA` under name `"a"` in `Fc`. -/
theorem get_partition_contract_witness :
    alookup nmA Fc.tocMap = some pcA ∧
    (get_partition_req Fc nmA = .ok (resolve_partition pcA) ∧
     (resolve_partition pcA).dataOff = pcA.offset ∧
     (resolve_partition pcA).size = pcA.cardinality ∧
     (entry_size_check 8 pcA = some (resolve_partition pcA) ↔
       pcA.entry_size = 8)) :=
  ⟨by decide, get_partition_contract Fc 8 nmA pcA (by decide)⟩

/-- C4: cache idempotence.  If a call to the caching accessor succeeds with
value `v` and post-state `c1`, the next call returns the same value `v`
(and leaves the cache at `c1`): a hit returns the same `(data, size)` the
preceding miss stored. -/
theorem get_and_cache_idempotent (F : FileImpl) (name : List Nat)
    (slot : Nat) (cache : CacheState) (v : PartitionView) (c1 : CacheState)
    (h1 : get_and_cache_partition F name slot cache = .ok (v, c1)) :
    get_and_cache_partition F name slot c1 = .ok (v, c1) := by
  cases hcache : List.getD cache slot none with
  | some c =>
    simp only [get_and_cache_partition, hcache, Except.ok.injEq,
      Prod.mk.injEq] at h1
    obtain ⟨hv, hc⟩ := h1
    subst hv
    subst hc
    simp only [get_and_cache_partition, hcache]
  | none =>
    cases hfind : alookup name F.tocMap with
    | none =>
      simp only [get_and_cache_partition, hcache, hfind] at h1
      exact absurd h1 (by simp)
    | some p =>
      simp only [get_and_cache_partition, hcache, hfind, Except.ok.injEq,
        Prod.mk.injEq] at h1
      obtain ⟨hv, hc⟩ := h1
      subst hv
      subst hc
      by_cases hlen : slot < cache.length
      · simp only [get_and_cache_partition,
          list_getD_set_self cache slot (some (p.offset, p.cardinality))
            none hlen]
        rfl
      · have hset := list_set_of_length_le cache slot
          (some (p.offset, p.cardinality)) (Nat.le_of_not_lt hlen)
        rw [hset]
        simp only [get_and_cache_partition, hcache, hfind, hset]

/-- Witness for C4: a miss on slot 0 of an empty two-slot cache for `Fc`,
followed by the hit on the updated cache, both returning `(16, 3)`. -/
theorem get_and_cache_idempotent_witness :
    get_and_cache_partition Fc nmA 0 [none, none] =
      .ok (⟨16, 3⟩, [some (16, 3), none]) ∧
    get_and_cache_partition Fc nmA 0 [some (16, 3), none] =
      .ok (⟨16, 3⟩, [some (16, 3), none]) :=
  ⟨rfl,
   get_and_cache_idempotent Fc nmA 0 [none, none] ⟨16, 3⟩
     [some (16, 3), none] rfl⟩

/-- C7: a name not listed in the TOC makes `try_get_partition` return the
absent optional and `get_partition` fail with the missing-partition error;
a listed name makes both return the same resolved partition. -/
theorem try_get_vs_get (F : FileImpl) (name : List Nat) :
    (alookup name F.tocMap = none →
      try_get_partition F name = none ∧
      get_partition_req F name = .error .missingPartition) ∧
    (∀ p, alookup name F.tocMap = some p →
      try_get_partition F name = some (resolve_partition p) ∧
      get_partition_req F name = .ok (resolve_partition p)) := by
  constructor
  · intro h
    simp [try_get_partition, get_partition_req, h]
  · intro p h
    simp [try_get_partition, get_partition_req, h]

/-- Witness for C7: on `Fc`, the name `"b"` is absent and the name `"a"`
is present. -/
theorem try_get_vs_get_witness :
    (alookup [98] Fc.tocMap = none ∧
     try_get_partition Fc [98] = none ∧
     get_partition_req Fc [98] = .error .missingPartition) ∧
    (alookup nmA Fc.tocMap = some pcA ∧
     try_get_partition Fc nmA = some (resolve_partition pcA) ∧
     get_partition_req Fc nmA = .ok (resolve_partition pcA)) :=
  ⟨⟨by decide, (try_get_vs_get Fc [98]).1 (by decide)⟩,
   ⟨by decide, (try_get_vs_get Fc nmA).2 pcA (by decide)⟩⟩

/-! ### Lemmas about the attribute-map insertion -/

theorem get_value_eq_getD {α : Type} [Inhabited α] (d : Nat)
    (m : List (Nat × α)) : get_value d m = (alookup d m).getD default := by
  unfold get_value
  cases alookup d m <;> rfl

theorem alookup_pushAttr (m : List (Nat × List Nat)) (d a k : Nat) :
    alookup k (pushAttr m d a) =
      if d = k then some (((alookup k m).getD []) ++ [a])
      else alookup k m := by
  induction m with
  | nil =>
    by_cases hdk : d = k <;> simp [pushAttr, alookup, hdk]
  | cons e rest ih =>
    obtain ⟨k', v⟩ := e
    by_cases hk'd : k' = d
    · subst hk'd
      by_cases hdk : k' = k <;> simp [pushAttr, alookup, hdk]
    · by_cases hk'k : k' = k
      · subst hk'k
        have hdk : ¬ d = k' := fun hh => hk'd hh.symm
        simp [pushAttr, alookup, hk'd, hdk]
      · simp [pushAttr, alookup, hk'd, hk'k, ih]

theorem get_value_pushAttr (m : List (Nat × List Nat)) (d a k : Nat) :
    get_value k (pushAttr m d a) =
      if d = k then get_value k m ++ [a] else get_value k m := by
  rw [get_value_eq_getD, get_value_eq_getD, alookup_pushAttr]
  by_cases hdk : d = k
  · simp only [hdk, if_pos rfl, Option.getD_some]
    cases alookup k m <;> rfl
  · simp [hdk]

theorem get_value_fill (entries : List (AssociatedTrait Nat))
    (m : List (Nat × List Nat)) (d : Nat) :
    get_value d (entries.foldl (fun acc e => pushAttr acc e.decl e.trait) m) =
      get_value d m ++
        (entries.filter (fun e => e.decl == d)).map AssociatedTrait.trait := by
  induction entries generalizing m with
  | nil => simp
  | cons e rest ih =>
    simp only [List.foldl_cons, List.filter_cons]
    rw [ih, get_value_pushAttr]
    by_cases hd : e.decl = d
    · simp [hd, List.append_assoc]
    · simp [hd]

/-- C5: for every declaration index `d`, the attribute list is exactly the
`trait.attribute` entries for `d` (in partition order) followed by the
`.msvc.trait.decl-attrs` entries for `d` (in partition order), with no
deduplication; in particular `(decl 7, attr 101)` in the first and
`(decl 7, attr 202)` in the second give `[101, 202]` (scenario S4). -/
theorem trait_attribute_union_order (e1 e2 : List (AssociatedTrait Nat))
    (d : Nat) :
    trait_declaration_attributes (some e1) (some e2) d =
      (e1.filter (fun e => e.decl == d)).map AssociatedTrait.trait ++
      (e2.filter (fun e => e.decl == d)).map AssociatedTrait.trait ∧
    trait_declaration_attributes (some [⟨7, 101⟩]) (some [⟨7, 202⟩]) 7 =
      [101, 202] := by
  constructor
  · show get_value d
      (fill_decl_attributes (fill_decl_attributes [] (some e1)) (some e2)) = _
    simp only [fill_decl_attributes]
    rw [get_value_fill, get_value_fill]
    have h0 : get_value d ([] : List (Nat × List Nat)) = [] := rfl
    simp [h0]
  · decide

/-- C6: a file without the `trait.deprecated` partition yields the null
text offset for every queried declaration (building the map is not an
error, it is just empty), and in general a trait query for a key absent
from a trait map returns the element type's default value. -/
theorem trait_deprecation_missing :
    (∀ d : Nat, trait_deprecation_texts none d = nullTextOffset) ∧
    (∀ (α : Type) [Inhabited α] (m : List (Nat × α)) (d : Nat),
      alookup d m = none → get_value d m = default) := by
  constructor
  · intro d
    rfl
  · intro α _ m d h
    simp [get_value, h]

/-- Witness for C6: declaration 42 in the absent-partition map, and key 2
absent from a one-entry map. -/
theorem trait_deprecation_missing_witness :
    trait_deprecation_texts none 42 = nullTextOffset ∧
    get_value 2 [(1, 5)] = (default : Nat) :=
  ⟨trait_deprecation_missing.1 42,
   trait_deprecation_missing.2 Nat [(1, 5)] 2 (by decide)⟩

/-! ### Lemmas about the TOC name map construction -/

theorem alookup_append_of_some {κ α : Type} [DecidableEq κ] (k : κ)
    (l1 l2 : List (κ × α)) (v : α) (h : alookup k l1 = some v) :
    alookup k (l1 ++ l2) = some v := by
  induction l1 with
  | nil => exact absurd h (by simp [alookup])
  | cons e rest ih =>
    obtain ⟨k', v'⟩ := e
    by_cases hk : k' = k
    · simp [alookup, hk] at h ⊢
      exact h
    · simp only [alookup, if_neg hk, List.cons_append] at h ⊢
      exact ih h

theorem alookup_append_of_none {κ α : Type} [DecidableEq κ] (k : κ)
    (l1 l2 : List (κ × α)) (h : alookup k l1 = none) :
    alookup k (l1 ++ l2) = alookup k l2 := by
  induction l1 with
  | nil => rfl
  | cons e rest ih =>
    obtain ⟨k', v'⟩ := e
    by_cases hk : k' = k
    · simp [alookup, hk] at h
    · simp only [alookup, if_neg hk, List.cons_append] at h ⊢
      exact ih h

theorem fold_emplace_preserves (f : PartitionSummary → List Nat)
    (ps : List PartitionSummary) (m : List (List Nat × PartitionSummary))
    (k : List Nat) (v : PartitionSummary) (h : alookup k m = some v) :
    alookup k (ps.foldl (fun m p => emplace m (f p) p) m) = some v := by
  induction ps generalizing m with
  | nil => exact h
  | cons p rest ih =>
    simp only [List.foldl_cons]
    apply ih
    unfold emplace
    by_cases hs : (alookup (f p) m).isSome
    · rw [if_pos hs]
      exact h
    · rw [if_neg hs]
      exact alookup_append_of_some k m _ v h

theorem fold_emplace_all (f : PartitionSummary → List Nat)
    (ps : List PartitionSummary) (m : List (List Nat × PartitionSummary))
    (hnodup : (ps.map f).Nodup)
    (hfresh : ∀ p ∈ ps, alookup (f p) m = none) :
    (ps.foldl (fun m p => emplace m (f p) p) m).length = m.length + ps.length ∧
    ∀ p ∈ ps, alookup (f p) (ps.foldl (fun m p => emplace m (f p) p) m) =
      some p := by
  induction ps generalizing m with
  | nil => simp
  | cons p rest ih =>
    have hfp : alookup (f p) m = none := hfresh p (List.mem_cons_self p rest)
    have hemp : emplace m (f p) p = m ++ [(f p, p)] := by
      unfold emplace
      rw [hfp]
      rfl
    have hnodup' : (rest.map f).Nodup := (List.nodup_cons.mp (by simpa using hnodup)).2
    have hfp_notin : f p ∉ rest.map f := (List.nodup_cons.mp (by simpa using hnodup)).1
    have hfresh' : ∀ q ∈ rest, alookup (f q) (m ++ [(f p, p)]) = none := by
      intro q hq
      rw [alookup_append_of_none _ _ _ (hfresh q (List.mem_cons_of_mem p hq))]
      have hne : ¬ f p = f q :=
        fun hcontra => hfp_notin (hcontra ▸ List.mem_map_of_mem f hq)
      simp [alookup, hne]
    obtain ⟨hlen, hall⟩ := ih (m ++ [(f p, p)]) hnodup' hfresh'
    simp only [List.foldl_cons, hemp]
    constructor
    · rw [hlen]
      have hm : (m ++ [(f p, p)]).length = m.length + 1 := by simp
      have hr : (p :: rest).length = rest.length + 1 := by simp
      omega
    · intro q hq
      rcases List.mem_cons.mp hq with hq | hq
      · subst hq
        apply fold_emplace_preserves
        rw [alookup_append_of_none _ _ _ hfp]
        simp [alookup]
      · exact hall q hq

/-- C8 counterexample: `dupBlob` passes both open checks (it is a "valid
file" in the sense open enforces), yet its TOC has two descriptors with the
same resolved name and the name map holds a single entry — open does not
disallow duplicate names, so the map does not have one entry per
descriptor. -/
theorem toc_map_duplicate_names_cex :
    openImpl LayoutLE dupBlob = .ok dupFile ∧
    dupFile.toc.length = 2 ∧
    dupFile.tocMap.length = 1 :=
  ⟨rfl, rfl, rfl⟩

/-- C8 amended: when the resolved names of the TOC descriptors are pairwise
distinct (the format invariant the spec states), the name map has exactly
one entry per descriptor and each descriptor is found under its name; a
file with duplicate names is not rejected — later descriptors with an
already-present name are silently not inserted (first insertion wins). -/
theorem toc_map_unique_names (L : Layout) (bytes : List Nat) (h : FileHeader)
    (hnodup : ((table_of_contents L bytes h).map
      (fun p => get_string bytes h p.name)).Nodup) :
    (build_toc_map L bytes h).length = (table_of_contents L bytes h).length ∧
    ∀ p ∈ table_of_contents L bytes h,
      alookup (get_string bytes h p.name) (build_toc_map L bytes h) =
        some p := by
  have hmain := fold_emplace_all (fun p => get_string bytes h p.name)
    (table_of_contents L bytes h) [] hnodup (fun p _ => rfl)
  simpa [build_toc_map] using hmain

/-- Witness for the amended C8: `twoNamesBlob`, whose two descriptors
resolve to the distinct names `"a"` and `"b"`. -/
theorem toc_map_unique_names_witness :
    ((table_of_contents LayoutLE twoNamesBlob twoHdr).map
      (fun p => get_string twoNamesBlob twoHdr p.name)).Nodup ∧
    ((build_toc_map LayoutLE twoNamesBlob twoHdr).length =
      (table_of_contents LayoutLE twoNamesBlob twoHdr).length ∧
     ∀ p ∈ table_of_contents LayoutLE twoNamesBlob twoHdr,
       alookup (get_string twoNamesBlob twoHdr p.name)
         (build_toc_map LayoutLE twoNamesBlob twoHdr) = some p) :=
  ⟨by decide, toc_map_unique_names LayoutLE twoNamesBlob twoHdr (by decide)⟩

/-- C9: the environment is queried with `get_string(partition)` when the
owner is null, `get_string(owner) ++ ":" ++ get_string(partition)` when
both are non-null, and `get_string(owner)` alone when only the partition
is null. -/
theorem get_imported_module_name (bytes : List Nat) (h : FileHeader)
    (m : ModuleReference) :
    (m.owner = 0 →
      get_imported_module_query bytes h m = get_string bytes h m.partition) ∧
    (m.owner ≠ 0 → m.partition ≠ 0 →
      get_imported_module_query bytes h m =
        get_string bytes h m.owner ++ [58] ++
          get_string bytes h m.partition) ∧
    (m.owner ≠ 0 → m.partition = 0 →
      get_imported_module_query bytes h m = get_string bytes h m.owner) := by
  refine ⟨?_, ?_, ?_⟩
  · intro h0
    simp [get_imported_module_query, is_null, h0]
  · intro h0 h1
    simp [get_imported_module_query, is_null, h0, h1]
  · intro h0 h1
    simp [get_imported_module_query, is_null, h0, h1]

/-- Witness for C9: scenario S6 — a `ModuleReference` with null owner and
partition name `"std"` queries the environment with exactly `"std"`. -/
theorem get_imported_module_name_witness :
    get_imported_module_query [115, 116, 100, 0] ⟨0, 0, 0, 0, 0, 0⟩ ⟨0, 0⟩ =
      [115, 116, 100] :=
  Eq.trans
    ((get_imported_module_name [115, 116, 100, 0] ⟨0, 0, 0, 0, 0, 0⟩
      ⟨0, 0⟩).1 rfl)
    (by decide)

/-- C10: for every text offset `t` — the null offset and offsets at or past
the string-table size included — `get_string` returns exactly the pointer
`blob.base + header.string_table_bytes + t`, with no bounds check (the
result does not depend on `string_table_size` or any other header field)
and no check that a NUL terminator exists. -/
theorem get_string_unbounded (base : Nat) (h : FileHeader) (t : Nat) :
    get_string_ptr base h t = base + h.string_table_bytes + t ∧
    ∀ h' : FileHeader, h'.string_table_bytes = h.string_table_bytes →
      get_string_ptr base h' t = get_string_ptr base h t := by
  refine ⟨rfl, ?_⟩
  intro h' hh
  simp [get_string_ptr, get_raw_pointer, hh]

/-- Witness for C10: offset 7 in a table of advertised size 5 still yields
`base + string_table_bytes + 7`, and shrinking the advertised size to 0
changes nothing. -/
theorem get_string_unbounded_witness :
    get_string_ptr 0 ⟨0, 0, 100, 5, 0, 0⟩ 7 = 0 + 100 + 7 ∧
    get_string_ptr 0 ⟨0, 0, 100, 0, 0, 0⟩ 7 =
      get_string_ptr 0 ⟨0, 0, 100, 5, 0, 0⟩ 7 :=
  ⟨(get_string_unbounded 0 ⟨0, 0, 100, 5, 0, 0⟩ 7).1,
   (get_string_unbounded 0 ⟨0, 0, 100, 5, 0, 0⟩ 7).2 ⟨0, 0, 100, 0, 0, 0⟩ rfl⟩

end IfcReader
